import Mathlib

/-!
Verification of the QuantX_Project repository (fastcampus-domain-multiagent).

The Python modules `core/auth.py`, `core/logger.py`, `core/guardrails.py` and
`agents/core.py` are shallowly embedded below.  Python strings are embedded as
`List Char` (Python strings are sequences of Unicode code points, as are Lean
`String.data` lists).  Stateful methods are embedded as explicit functions of
the state they read; calls to external services (the OpenAI moderation API,
the LLM agent framework) are embedded as oracle parameters, since their
results are not determined by the repository code.
-/

/-! ## Embeddings of the Python string primitives used by the repository -/

/-- Embedding of `str.lower` for a single code point.  Python's `str.lower`
maps the ASCII letters `A`–`Z` (code points 65–90) to `a`–`z` and leaves
Hangul and the other characters appearing in this code base unchanged. -/
def pyToLower (c : Char) : Char :=
  if 65 ≤ c.toNat ∧ c.toNat ≤ 90 then Char.ofNat (c.toNat + 32) else c

/-- Embedding of `str.lower` on a whole string. -/
def pyLower (s : List Char) : List Char := s.map pyToLower

/-- Embedding of the Python substring test `p in s` for strings. -/
def containsSub (p : List Char) : List Char → Bool
  | [] => p.isEmpty
  | c :: cs => p.isPrefixOf (c :: cs) || containsSub p cs

theorem containsSub_iff (p : List Char) : ∀ s : List Char, containsSub p s = true ↔ p <:+: s := by
  intro s
  induction s with
  | nil =>
    simp [containsSub, List.isEmpty_iff, List.infix_nil]
  | cons c cs ih =>
    simp [containsSub, List.infix_cons_iff, ih]

/-- The scan of Python `str.replace(old, new)`, structurally recursive on a
fuel bounded below by the string length (each step consumes at least one
character when the pattern is non-empty, so the fuel never runs out). -/
def replaceFuel (p r : List Char) : Nat → List Char → List Char
  | _, [] => []
  | 0, s => s
  | fuel + 1, c :: cs =>
    if p.isPrefixOf (c :: cs) then r ++ replaceFuel p r fuel ((c :: cs).drop p.length)
    else c :: replaceFuel p r fuel cs

/-- Embedding of Python `str.replace(old, new)`: replace every non-overlapping
occurrence of `p` in `s` by `r`, scanning left to right.  (The repository only
ever calls `replace` with a non-empty `old`; on an empty `p` the Python
behaviour of inserting `new` everywhere is not needed and we return `s`.) -/
def replaceL (p r : List Char) (s : List Char) : List Char :=
  if p.isEmpty then s else replaceFuel p r s.length s

theorem replaceFuel_nil (p r : List Char) (fuel : Nat) : replaceFuel p r fuel [] = [] := by
  cases fuel <;> rfl

theorem replaceFuel_congr (p r : List Char) (hp : p.isEmpty = false) :
    ∀ (fuel fuel' : Nat) (s : List Char), s.length ≤ fuel → s.length ≤ fuel' →
      replaceFuel p r fuel s = replaceFuel p r fuel' s := by
  have hppos : 0 < p.length := by
    cases p with
    | nil => simp [List.isEmpty] at hp
    | cons a as => simp
  intro fuel
  induction fuel with
  | zero =>
    intro fuel' s hs _
    have hsnil : s = [] := List.length_eq_zero.mp (Nat.le_zero.mp hs)
    subst hsnil
    rw [replaceFuel_nil, replaceFuel_nil]
  | succ n ih =>
    intro fuel' s hs hs'
    cases s with
    | nil => rw [replaceFuel_nil, replaceFuel_nil]
    | cons c cs =>
      cases fuel' with
      | zero =>
        exfalso
        simp only [List.length_cons] at hs'
        omega
      | succ m =>
        show (if p.isPrefixOf (c :: cs) then r ++ replaceFuel p r n ((c :: cs).drop p.length)
            else c :: replaceFuel p r n cs)
          = if p.isPrefixOf (c :: cs) then r ++ replaceFuel p r m ((c :: cs).drop p.length)
            else c :: replaceFuel p r m cs
        simp only [List.length_cons] at hs hs'
        by_cases hm : p.isPrefixOf (c :: cs) = true
        · rw [if_pos hm, if_pos hm]
          congr 1
          exact ih m _ (by simp only [List.length_drop, List.length_cons]; omega)
            (by simp only [List.length_drop, List.length_cons]; omega)
        · rw [if_neg hm, if_neg hm]
          congr 1
          exact ih m cs (by omega) (by omega)

/-- Embedding of Python `str.count(sub)`: the number of non-overlapping
occurrences of `p` in `s`, scanning left to right.  (For the empty pattern
Python returns `len(s) + 1`.) -/
def countOcc (p : List Char) (s : List Char) : Nat :=
  if hp : p.isEmpty then s.length + 1
  else
    match s with
    | [] => 0
    | c :: cs =>
      if p.isPrefixOf (c :: cs) then 1 + countOcc p ((c :: cs).drop p.length)
      else countOcc p cs
termination_by s.length
decreasing_by
  · simp only [List.length_drop, List.length_cons]
    have hp' : 0 < p.length := by
      cases p with
      | nil => simp [List.isEmpty] at hp
      | cons a as => simp
    omega
  · simp only [List.length_cons]; omega

/-- Embedding of the Python whitespace test used by `str.strip()` for the
character universe of this code base (ASCII whitespace). -/
def isPySpace (c : Char) : Bool :=
  c = ' ' || c = '\t' || c = '\n' || c = '\r' || c.toNat = 11 || c.toNat = 12

/-- Embedding of `len(s.strip()) > 0`: `s` contains a non-whitespace
character. -/
def stripNonempty (s : List Char) : Bool := s.any (fun c => !(isPySpace c))

/-! ## `core/auth.py` -/

/-- `UserRole` from `core/auth.py`. -/
inductive UserRole where
  | JUNIOR_ANALYST
  | SENIOR_MANAGER
deriving DecidableEq

/-- The `role_permissions` matrix built in `AuthenticationManager.__init__`. -/
def role_permissions : UserRole → List (List Char × Bool)
  | UserRole.JUNIOR_ANALYST =>
      [("search_internal".data, true), ("search_web".data, true),
       ("get_stock_price".data, true), ("save_report".data, false),
       ("access_sensitive_data".data, false)]
  | UserRole.SENIOR_MANAGER =>
      [("search_internal".data, true), ("search_web".data, true),
       ("get_stock_price".data, true), ("save_report".data, true),
       ("access_sensitive_data".data, true)]

/-- `UserSession` from `core/auth.py` (the `login_time` is the wall-clock
string passed in by the caller; `datetime.now()` is an external input). -/
structure UserSession where
  user_id : List Char
  role : UserRole
  login_time : List Char
  permissions : List (List Char × Bool)

/-- `AuthenticationManager.login`: role assignment by the `"senior"`
substring test on the lowercased id, and session creation with a copy of the
static role table. -/
def login (now : List Char) (user_id : List Char) : UserSession :=
  let role := if containsSub "senior".data (pyLower user_id) then UserRole.SENIOR_MANAGER
              else UserRole.JUNIOR_ANALYST
  { user_id := user_id, role := role, login_time := now,
    permissions := role_permissions role }

/-- The two ways `AuthenticationManager.check_permission` raises
`PermissionError`. -/
inductive PermError where
  | loginRequired
  | denied (perm : List Char)
deriving DecidableEq

/-- `AuthenticationManager.check_permission`: raises when not logged in,
looks the permission up with `dict.get(permission, False)`, raises when the
result is falsy, returns it otherwise. -/
def check_permission (current_session : Option UserSession) (perm : List Char) :
    Except PermError Bool :=
  match current_session with
  | none => Except.error PermError.loginRequired
  | some s =>
    let has_permission := (List.lookup perm s.permissions).getD false
    if has_permission then Except.ok has_permission
    else Except.error (PermError.denied perm)

/-- C1: `AuthenticationManager.check_permission(p)` raises `PermissionError`
iff there is no active session or the active session's permission table maps
`p` to false or has no entry for `p`; whenever it does not raise it returns
`True`, and it never returns `False`. -/
theorem check_permission_spec :
    ∀ (session : Option UserSession) (perm : List Char),
      ((∃ e, check_permission session perm = Except.error e) ↔
        (session = none ∨
          ∃ s, session = some s ∧ (List.lookup perm s.permissions).getD false = false)) ∧
      (∀ b, check_permission session perm = Except.ok b → b = true) := by
  intro session perm
  cases session with
  | none =>
    refine ⟨⟨fun _ => Or.inl rfl, fun _ => ⟨PermError.loginRequired, rfl⟩⟩, ?_⟩
    intro b h
    simp [check_permission] at h
  | some s =>
    by_cases h : (List.lookup perm s.permissions).getD false = true
    · constructor
      · constructor
        · intro ⟨e, he⟩
          simp [check_permission, h] at he
        · rintro (hc | ⟨s', hs', hfalse⟩)
          · exact absurd hc (by simp)
          · rw [Option.some.injEq] at hs'
            rw [← hs'] at hfalse
            rw [h] at hfalse
            exact absurd hfalse (by simp)
      · intro b hb
        simp [check_permission, h] at hb
        exact hb
    · rw [Bool.not_eq_true] at h
      constructor
      · constructor
        · intro _
          exact Or.inr ⟨s, rfl, h⟩
        · intro _
          exact ⟨PermError.denied perm, by simp [check_permission, h]⟩
      · intro b hb
        simp [check_permission, h] at hb

/-- Witness for C1 at a concrete input: with no active session,
`check_permission` raises. -/
theorem check_permission_spec_witness :
    ∃ e, check_permission none "save_report".data = Except.error e :=
  (check_permission_spec none "save_report".data).1.mpr (Or.inl rfl)

/-- C2: `login` assigns `SENIOR_MANAGER` exactly when the lowercased id
contains `"senior"` and `JUNIOR_ANALYST` otherwise; the session's permission
table equals the static role table; both roles grant `search_internal`,
`search_web` and `get_stock_price`; only `SENIOR_MANAGER` grants
`save_report` and `access_sensitive_data`. -/
theorem login_spec :
    ∀ (now uid : List Char),
      ((login now uid).role =
        if "senior".data <:+: pyLower uid then UserRole.SENIOR_MANAGER
        else UserRole.JUNIOR_ANALYST) ∧
      (login now uid).permissions = role_permissions (login now uid).role ∧
      (∀ r : UserRole,
        List.lookup "search_internal".data (role_permissions r) = some true ∧
        List.lookup "search_web".data (role_permissions r) = some true ∧
        List.lookup "get_stock_price".data (role_permissions r) = some true) ∧
      (List.lookup "save_report".data (role_permissions UserRole.SENIOR_MANAGER) = some true ∧
       List.lookup "access_sensitive_data".data (role_permissions UserRole.SENIOR_MANAGER)
         = some true) ∧
      (List.lookup "save_report".data (role_permissions UserRole.JUNIOR_ANALYST) = some false ∧
       List.lookup "access_sensitive_data".data (role_permissions UserRole.JUNIOR_ANALYST)
         = some false) := by
  intro now uid
  refine ⟨?_, ?_, ?_, ?_, ?_⟩
  · by_cases h : "senior".data <:+: pyLower uid
    · rw [if_pos h]
      have hb : containsSub "senior".data (pyLower uid) = true :=
        (containsSub_iff _ _).mpr h
      simp [login, hb]
    · rw [if_neg h]
      have hb : containsSub "senior".data (pyLower uid) = false := by
        rw [← Bool.not_eq_true, containsSub_iff]
        exact h
      simp [login, hb]
  · by_cases hb : containsSub "senior".data (pyLower uid) = true <;> simp [login, hb]
  · intro r; cases r <;> decide
  · decide
  · decide

/-! ## `core/logger.py`

`AuditLogger` keeps `memory_buffer = deque(maxlen=100)`.  Each of
`log_audit`, `log_system_event` and `log_security_event` builds one display
record and appends it; a full deque drops its oldest element.  Timestamps
(`datetime.now().isoformat()`) are external inputs and are passed in as the
`now` argument.  The record's `formatted_message` string (the rendering of
the other fields that also goes to the log file) is presentation-only and is
not modelled; `details` dictionaries are modelled as flat association
lists. -/

/-- The `sensitive_keys` list of `AuditLogger._mask_sensitive_data`. -/
def sensitive_keys : List (List Char) :=
  ["password".data, "passwd".data, "pwd".data, "api_key".data, "apikey".data,
   "token".data, "secret".data, "private_key".data, "credit_card".data,
   "ssn".data, "social_security".data]

/-- Masking of a single sensitive value in `_mask_sensitive_data`. -/
def maskValue (v : List Char) : List Char :=
  if 4 < v.length then v.take 2 ++ List.replicate (v.length - 4) '*' ++ v.drop (v.length - 2)
  else "***MASKED***".data

/-- `AuditLogger._mask_sensitive_data` on a flat details dictionary. -/
def maskDetails (d : List (List Char × List Char)) : List (List Char × List Char) :=
  d.map fun kv =>
    if sensitive_keys.any (fun sk => containsSub sk (pyLower kv.1)) then (kv.1, maskValue kv.2)
    else kv

/-- One entry of `AuditLogger.memory_buffer` (a `display_record` dict). -/
structure DisplayRecord where
  timestamp : List Char
  user_id : List Char
  action : List Char
  details : List (List Char × List Char)
  severity : Option (List Char)

/-- Appending to a `collections.deque` with `maxlen = cap`: the new element
goes to the right end and, when the deque is full, the oldest (leftmost)
element is dropped. -/
def dequePush (cap : Nat) (buf : List DisplayRecord) (x : DisplayRecord) : List DisplayRecord :=
  (buf ++ [x]).drop (buf.length + 1 - cap)

/-- The display record built by `AuditLogger.log_audit`. -/
def auditRecord (now u a : List Char) (d : List (List Char × List Char)) : DisplayRecord :=
  { timestamp := now, user_id := u, action := a, details := maskDetails d, severity := none }

/-- Buffer effect of `AuditLogger.log_audit`. -/
def log_audit (now : List Char) (buf : List DisplayRecord) (u a : List Char)
    (d : List (List Char × List Char)) : List DisplayRecord :=
  dequePush 100 buf (auditRecord now u a d)

/-- The display record built by `AuditLogger.log_system_event`
(`user_id` is the literal `"SYSTEM"`, the action is the event type). -/
def systemRecord (now event_type : List Char) (d : List (List Char × List Char)) :
    DisplayRecord :=
  { timestamp := now, user_id := "SYSTEM".data, action := event_type,
    details := maskDetails d, severity := none }

/-- Buffer effect of `AuditLogger.log_system_event`. -/
def log_system_event (now : List Char) (buf : List DisplayRecord) (event_type : List Char)
    (d : List (List Char × List Char)) : List DisplayRecord :=
  dequePush 100 buf (systemRecord now event_type d)

/-- The display record built by `AuditLogger.log_security_event`
(the action carries the `"🔒 "` marker and the severity is recorded). -/
def securityRecord (now u event_type severity : List Char)
    (d : List (List Char × List Char)) : DisplayRecord :=
  { timestamp := now, user_id := u, action := "🔒 ".data ++ event_type,
    details := maskDetails d, severity := some severity }

/-- Buffer effect of `AuditLogger.log_security_event`. -/
def log_security_event (now : List Char) (buf : List DisplayRecord) (u event_type severity : List Char)
    (d : List (List Char × List Char)) : List DisplayRecord :=
  dequePush 100 buf (securityRecord now u event_type severity d)

/-- `AuditLogger.get_recent_logs`: `list(self.memory_buffer)[-count:]`.
Python's negative slice `[-count:]` returns the last `count` elements for
`count ≥ 1`, but for `count = 0` the slice `[-0:]` is `[0:]`, i.e. the whole
buffer. -/
def get_recent_logs (buf : List DisplayRecord) (count : Nat) : List DisplayRecord :=
  if count = 0 then buf else buf.drop (buf.length - count)

/-- A concrete display record used for counterexamples and witnesses. -/
def sampleRecord : DisplayRecord :=
  { timestamp := "t".data, user_id := "u".data, action := "a".data,
    details := [], severity := none }

/-- C6 counterexample: `get_recent_logs(0)` on a one-element buffer returns
that element, not the `min(0, 1) = 0` records the claim requires. -/
theorem get_recent_logs_zero_cex :
    (get_recent_logs [sampleRecord] 0).length ≠ min 0 ([sampleRecord].length) := by
  decide

/-- C6 (amended): each of the three log functions appends exactly one record
at the right end of the deque, existing records are kept in order with only
the oldest dropped when the buffer is full, the buffer never exceeds 100
records, and for every `count ≥ 1` `get_recent_logs` returns the most recent
`min(count, size)` records in chronological order; `get_recent_logs 0`
returns the entire buffer. -/
theorem audit_buffer_spec :
    ∀ (now : List Char) (buf : List DisplayRecord), buf.length ≤ 100 →
    ∀ (u a et sev : List Char) (d : List (List Char × List Char)) (x : DisplayRecord)
      (count : Nat),
      log_audit now buf u a d = dequePush 100 buf (auditRecord now u a d) ∧
      log_system_event now buf et d = dequePush 100 buf (systemRecord now et d) ∧
      log_security_event now buf u et sev d
        = dequePush 100 buf (securityRecord now u et sev d) ∧
      (buf.length < 100 → dequePush 100 buf x = buf ++ [x]) ∧
      (buf.length = 100 → dequePush 100 buf x = buf.tail ++ [x]) ∧
      (dequePush 100 buf x).length ≤ 100 ∧
      (1 ≤ count →
        get_recent_logs buf count = buf.drop (buf.length - count) ∧
        (get_recent_logs buf count).length = min count buf.length ∧
        get_recent_logs buf count <:+ buf) ∧
      get_recent_logs buf 0 = buf := by
  intro now buf hbuf u a et sev d x count
  refine ⟨rfl, rfl, rfl, ?_, ?_, ?_, ?_, rfl⟩
  · intro hlt
    have h0 : buf.length + 1 - 100 = 0 := by omega
    simp [dequePush, h0]
  · intro heq
    have h1 : buf.length + 1 - 100 = 1 := by omega
    have h2 : 1 - buf.length = 0 := by omega
    simp [dequePush, h1, List.drop_append_eq_append_drop, h2, List.drop_one]
  · simp only [dequePush, List.length_drop, List.length_append, List.length_cons,
      List.length_nil]
    omega
  · intro hc
    have hne : count ≠ 0 := by omega
    refine ⟨by simp [get_recent_logs, hne], ?_, ?_⟩
    · simp only [get_recent_logs, if_neg hne, List.length_drop]
      omega
    · simp only [get_recent_logs, if_neg hne]
      exact List.drop_suffix _ _

/-- Witness for C6 (amended) at concrete inputs: pushing onto an empty
buffer appends, and `get_recent_logs 1` on a one-record buffer returns that
record. -/
theorem audit_buffer_spec_witness :
    dequePush 100 ([] : List DisplayRecord) sampleRecord = [] ++ [sampleRecord] ∧
    get_recent_logs [sampleRecord] 1 = [sampleRecord].drop 0 := by
  constructor
  · exact (audit_buffer_spec "t".data [] (by simp) "u".data "a".data "e".data "s".data []
      sampleRecord 1).2.2.2.1 (by simp)
  · exact ((audit_buffer_spec "t".data [sampleRecord] (by simp) "u".data "a".data "e".data
      "s".data [] sampleRecord 1).2.2.2.2.2.2.1 (le_refl 1)).1

/-! ## `core/guardrails.py` — constants -/

/-- `RiskLevel` from `core/guardrails.py`. -/
inductive RiskLevel where
  | SAFE
  | WARNING
  | BLOCKED
deriving DecidableEq

/-- `self.input_blacklist` from `SecurityGuardrails.__init__`. -/
def input_blacklist : List (List Char) :=
  ["해킹".data, "크래킹".data, "피싱".data, "스미싱".data,
   "sql injection".data, "xss".data, "csrf".data,
   "내부자".data, "내부정보".data, "미공개정보".data,
   "인사이더".data, "insider trading".data,
   "작전주".data, "작전세력".data, "주가조작".data,
   "펌프앤덤프".data, "pump and dump".data,
   "찌라시".data, "루머".data, "가짜뉴스".data,
   "미확인정보".data, "카더라".data]

/-- `self.compliance_violations` from `SecurityGuardrails.__init__`, in
source order. -/
def compliance_violations : List (List Char) :=
  ["무조건".data, "확실한".data, "보장".data, "100%".data,
   "반드시".data, "틀림없이".data, "확실히".data,
   "사세요".data, "파세요".data, "매수하세요".data, "매도하세요".data,
   "추천합니다".data, "강력추천".data,
   "수익보장".data, "원금보장".data, "손실없음".data,
   "위험없음".data, "안전한투자".data]

/-- `self.compliance_replacements` from `SecurityGuardrails.__init__`. -/
def compliance_replacements : List (List Char × List Char) :=
  [("무조건".data, "[검열됨 - 불확실성 표현 필요]".data),
   ("확실한".data, "가능성이 높은".data),
   ("보장".data, "예상".data),
   ("100%".data, "높은 확률로".data),
   ("반드시".data, "일반적으로".data),
   ("틀림없이".data, "추정되는".data),
   ("확실히".data, "예상되는".data),
   ("사세요".data, "매수를 고려해볼 수 있습니다".data),
   ("파세요".data, "매도를 검토해볼 수 있습니다".data),
   ("추천합니다".data, "참고하시기 바랍니다".data),
   ("수익보장".data, "[검열됨 - 수익 보장 불가]".data),
   ("원금보장".data, "[검열됨 - 원금 보장 불가]".data)]

/-- Dictionary lookup in `compliance_replacements`. -/
def lookupRepl (v : List Char) : Option (List Char) := List.lookup v compliance_replacements

/-- The `financial_keywords` list of `SecurityGuardrails._needs_disclaimer`. -/
def financial_keywords : List (List Char) :=
  ["투자".data, "주식".data, "채권".data, "펀드".data, "수익".data,
   "손실".data, "위험".data, "매수".data, "매도".data, "추천".data,
   "전망".data, "예상".data, "분석".data, "평가".data]

/-- `SecurityGuardrails._get_financial_disclaimer`. -/
def disclaimerText : List Char :=
  ("⚠️ **투자 유의사항**\n본 정보는 투자 참고용이며, 투자 결정에 대한 책임은 투자자 본인에게 있습니다. 투자에는 원금 손실 위험이 있으며, 과거 성과가 미래 수익을 보장하지 않습니다. 투자 전 충분한 검토와 전문가 상담을 권장합니다.").data

/-- The safe replacement message used when AI moderation blocks an output. -/
def blockMsg : List Char :=
  "[콘텐츠 차단] 해당 응답은 보안 정책에 위배되어 표시할 수 없습니다.".data

/-! ## `core/guardrails.py` — the `suspicious_patterns` regexes

The four concrete regular expressions of `self.suspicious_patterns` are
embedded as dedicated matchers.  Each matcher is applied at one position and
returns the rest of the string after the (greedy) match, or `none`.  For
these four patterns greedy matching needs no backtracking: every optional or
starred element is followed by a required element drawn from a disjoint
character class.  The character universe is ASCII plus Hangul syllables, the
characters occurring in this code base (Python's `\w` also matches Hangul,
`\d` and `\s` are taken as their ASCII meaning). -/

/-- Hangul syllables (U+AC00–U+D7A3). -/
def isHangul (c : Char) : Bool := 0xAC00 ≤ c.toNat && c.toNat ≤ 0xD7A3

/-- The regex class `\w` over the character universe of this code base. -/
def isWordC (c : Char) : Bool := c.isAlpha || c.isDigit || c = '_' || isHangul c

/-- The regex class `\s` (ASCII whitespace). -/
def isSpaceC (c : Char) : Bool := isPySpace c

/-- The regex class `[_\s]`. -/
def isSepUS (c : Char) : Bool := c = '_' || isSpaceC c

/-- Case-insensitive literal match (`re.IGNORECASE`); returns the rest. -/
def matchLitCI : List Char → List Char → Option (List Char)
  | [], s => some s
  | _ :: _, [] => none
  | l :: ls, c :: cs => if pyToLower c = pyToLower l then matchLitCI ls cs else none

/-- Match exactly `n` characters of class `f`; returns the rest. -/
def takeClass (f : Char → Bool) : Nat → List Char → Option (List Char)
  | 0, s => some s
  | _ + 1, [] => none
  | n + 1, c :: cs => if f c then takeClass f n cs else none

/-- Greedy `f*` (maximal munch). -/
def starClass (f : Char → Bool) (s : List Char) : List Char := s.dropWhile f

/-- Greedy `f?`. -/
def optClass (f : Char → Bool) : List Char → List Char
  | [] => []
  | c :: cs => if f c then cs else c :: cs

/-- Match one character of class `f`. -/
def matchClass1 (f : Char → Bool) : List Char → Option (List Char)
  | [] => none
  | c :: cs => if f c then some cs else none

/-- Greedy `f{n,}`: consume all consecutive `f`-characters, require at least
`n` of them. -/
def atLeastClass (f : Char → Bool) (n : Nat) (s : List Char) : Option (List Char) :=
  let rest := starClass f s
  if n + rest.length ≤ s.length then some rest else none

/-- The pattern `API[_\s]*KEY[_\s]*[=:]\s*["\']?[\w\-]{10,}` (IGNORECASE). -/
def matchApiKey (s : List Char) : Option (List Char) :=
  (matchLitCI "api".data s).bind fun s1 =>
  (matchLitCI "key".data (starClass isSepUS s1)).bind fun s2 =>
  (matchClass1 (fun c => c = '=' || c = ':') (starClass isSepUS s2)).bind fun s3 =>
  atLeastClass (fun c => isWordC c || c = '-') 10
    (optClass (fun c => c = '"' || c = Char.ofNat 39) (starClass isSpaceC s3))

/-- The pattern `password[_\s]*[=:]\s*["\']?[\w]{6,}` (IGNORECASE). -/
def matchPwd (s : List Char) : Option (List Char) :=
  (matchLitCI "password".data s).bind fun s1 =>
  (matchClass1 (fun c => c = '=' || c = ':') (starClass isSepUS s1)).bind fun s2 =>
  atLeastClass isWordC 6
    (optClass (fun c => c = '"' || c = Char.ofNat 39) (starClass isSpaceC s2))

/-- The regex class `[-\s]`. -/
def isSepDash (c : Char) : Bool := c = '-' || isSpaceC c

/-- The pattern `\d{4}[-\s]?\d{4}[-\s]?\d{4}[-\s]?\d{4}` (credit cards). -/
def matchCard (s : List Char) : Option (List Char) :=
  (takeClass Char.isDigit 4 s).bind fun s1 =>
  (takeClass Char.isDigit 4 (optClass isSepDash s1)).bind fun s2 =>
  (takeClass Char.isDigit 4 (optClass isSepDash s2)).bind fun s3 =>
  takeClass Char.isDigit 4 (optClass isSepDash s3)

/-- The pattern `\d{6}[-\s]?\d{7}` (resident registration numbers). -/
def matchRrn (s : List Char) : Option (List Char) :=
  (takeClass Char.isDigit 6 s).bind fun s1 =>
  takeClass Char.isDigit 7 (optClass isSepDash s1)

/-- The four `suspicious_patterns`, in source order. -/
def suspiciousMatchers : List (List Char → Option (List Char)) :=
  [matchApiKey, matchPwd, matchCard, matchRrn]

/-- Embedding of `re.search`: the pattern matches at some position. -/
def searchScan (m : List Char → Option (List Char)) : List Char → Bool
  | [] => (m []).isSome
  | c :: cs => (m (c :: cs)).isSome || searchScan m cs

/-- Embedding of `re.sub`: replace each leftmost non-overlapping match by
`repl` and continue after it.  (All four matchers consume at least one
character on success; the length guard only serves termination.) -/
def subScan (m : List Char → Option (List Char)) (repl : List Char) (s : List Char) :
    List Char :=
  match s with
  | [] => []
  | c :: cs =>
    match m (c :: cs) with
    | some rest =>
      if h : rest.length < cs.length + 1 then repl ++ subScan m repl rest
      else c :: subScan m repl cs
    | none => c :: subScan m repl cs
termination_by s.length
decreasing_by
  all_goals first
    | simpa [Nat.lt_succ_iff] using h
    | simp

/-! ## `core/guardrails.py` — moderation and results -/

/-- `ModerationResult` from `core/guardrails.py`.  The `category_scores` and
the custom threshold pass happen inside the external API call; the oracle
below returns the post-threshold result. -/
structure ModerationResultM where
  flagged : Bool
  categories : List (List Char × Bool)
  error : Option (List Char)

/-- The configuration of a `SecurityGuardrails` instance: whether the OpenAI
client was initialised, and (as an oracle) what a real moderation call
returns. -/
structure GuardConfig where
  moderation_enabled : Bool
  moder : List Char → ModerationResultM

/-- `SecurityGuardrails._call_openai_moderation`: without a client it returns
the unflagged stub carrying an error message; otherwise the external call's
result. -/
def call_openai_moderation (cfg : GuardConfig) (text : List Char) : ModerationResultM :=
  if cfg.moderation_enabled then cfg.moder text
  else { flagged := false, categories := [],
         error := some "OpenAI Moderation API 사용 불가".data }

/-- `GuardrailResult` from `core/guardrails.py`. -/
structure GuardrailResultM where
  is_safe : Bool
  risk_level : RiskLevel
  message : List Char
  detected_issues : List (List Char)
  filtered_content : Option (List Char)
  moderation_result : Option ModerationResultM
  security_layers : List (List Char)

/-- `", ".join(...)`. -/
def joinSep (sep : List Char) : List (List Char) → List Char
  | [] => []
  | [x] => x
  | x :: y :: xs => x ++ sep ++ joinSep sep (y :: xs)

/-- The names of the flagged moderation categories. -/
def flaggedCats (m : ModerationResultM) : List (List Char) :=
  (m.categories.filter (fun kv => kv.2)).map (fun kv => kv.1)

/-- The detected-issue entries contributed by stage 2 of `check_input`. -/
def modIssuesInput (m : ModerationResultM) : List (List Char) :=
  if m.flagged then
    if flaggedCats m ≠ [] then
      ["AI 모더레이션 차단: ".data ++ joinSep ", ".data (flaggedCats m)]
    else ["AI 모더레이션에 의해 부적절한 콘텐츠로 판정됨".data]
  else
    match m.error with
    | some e => ["AI 모더레이션 오류: ".data ++ e]
    | none => []

/-- The detected-issue entries contributed by stage 2 of `filter_output`. -/
def modIssuesOutput (m : ModerationResultM) : List (List Char) :=
  if m.flagged then
    if flaggedCats m ≠ [] then
      ["AI 모더레이션 차단: ".data ++ joinSep ", ".data (flaggedCats m)]
    else ["AI 모더레이션에 의해 부적절한 출력으로 판정됨".data]
  else
    match m.error with
    | some e => ["AI 모더레이션 오류: ".data ++ e]
    | none => []

/-- The risk level after stage 2 (shared by `check_input` and
`filter_output`): a flagged moderation blocks, a moderation error escalates
`SAFE` to `WARNING` only. -/
def stage2Risk (r1 : RiskLevel) : Option ModerationResultM → RiskLevel
  | none => r1
  | some m =>
    if m.flagged then RiskLevel.BLOCKED
    else if m.error.isSome then (if r1 = RiskLevel.SAFE then RiskLevel.WARNING else r1)
    else r1

/-! ## `SecurityGuardrails.check_input` -/

/-- The blacklist hits of stage 1 (`keyword in user_input.lower()`). -/
def anyBlacklist (input : List Char) : Bool :=
  input_blacklist.any (fun k => containsSub k (pyLower input))

/-- The issue entries appended by the blacklist loop. -/
def blacklistIssues (input : List Char) : List (List Char) :=
  input_blacklist.foldl
    (fun acc k =>
      if containsSub k (pyLower input) then acc ++ ["차단 키워드 감지: ".data ++ k] else acc)
    []

/-- `re.search` of some suspicious pattern against a text. -/
def anySuspicious (text : List Char) : Bool :=
  suspiciousMatchers.any (fun m => searchScan m text)

/-- The issue entries appended by the pattern loop of `check_input`
(one per matching pattern). -/
def inputPatternIssues (input : List Char) : List (List Char) :=
  suspiciousMatchers.foldl
    (fun acc m => if searchScan m input then acc ++ ["민감 정보 패턴 감지".data] else acc)
    []

/-- `len(re.findall(r'[^\w\s가-힣]', user_input))`. -/
def specialCount (input : List Char) : Nat :=
  (input.filter (fun c => !(isWordC c || isSpaceC c))).length

/-- `special_char_ratio > 0.3`, i.e. `count / len > 3 / 10` (the float
computation is exact enough that the rational comparison agrees for all
realistic lengths; an empty input has ratio 0). -/
def ratioHigh (input : List Char) : Bool :=
  decide (3 * input.length < 10 * specialCount input)

/-- The risk level set by stage 1 of `check_input`: blacklist hits, pattern
hits and over-long input each set `BLOCKED`; a high special-character ratio
sets `WARNING` only when the risk is still `SAFE`. -/
def inputStage1Risk (input : List Char) : RiskLevel :=
  let r1 := if anyBlacklist input then RiskLevel.BLOCKED else RiskLevel.SAFE
  let r2 := if anySuspicious input then RiskLevel.BLOCKED else r1
  let r3 := if 10000 < input.length then RiskLevel.BLOCKED else r2
  if ratioHigh input ∧ r3 = RiskLevel.SAFE then RiskLevel.WARNING else r3

/-- The issue entries collected by stage 1 of `check_input`, in source
order. -/
def inputStage1Issues (input : List Char) : List (List Char) :=
  blacklistIssues input ++ inputPatternIssues input
    ++ (if 10000 < input.length then ["입력 길이 초과 (10,000자 제한)".data] else [])
    ++ (if ratioHigh input then ["특수 문자 비율 과다".data] else [])

/-- `SecurityGuardrails.check_input`: stage 1 (keyword/pattern/length/ratio),
then AI moderation only when stage 1 did not block and the input is nonempty
after stripping. -/
def check_input (cfg : GuardConfig) (input : List Char) : GuardrailResultM :=
  let r1 := inputStage1Risk input
  let cond2 := decide (r1 ≠ RiskLevel.BLOCKED) && stripNonempty input
  let mod := if cond2 then some (call_openai_moderation cfg input) else none
  let r2 := stage2Risk r1 mod
  { is_safe := decide (r2 ≠ RiskLevel.BLOCKED),
    risk_level := r2,
    message :=
      if r2 = RiskLevel.BLOCKED then "입력이 보안 정책에 위배되어 차단되었습니다.".data
      else if r2 = RiskLevel.WARNING then "입력에 주의가 필요한 내용이 포함되어 있습니다.".data
      else "입력이 안전합니다.".data,
    detected_issues :=
      inputStage1Issues input ++ (match mod with | none => [] | some m => modIssuesInput m),
    filtered_content := none,
    moderation_result := mod,
    security_layers :=
      if cond2 then ["키워드 필터링".data, "AI 모더레이션".data] else ["키워드 필터링".data] }

/-! ## `SecurityGuardrails.filter_output` -/

/-- One iteration of the compliance loop of `filter_output`: the membership
test is against the original `output`, the replacement is applied to the
running `filtered_content`. -/
def complianceStep (out : List Char) (content : List Char) (v : List Char) : List Char :=
  if containsSub v out then
    match lookupRepl v with
    | some r => replaceL v r content
    | none => content
  else content

/-- The `filtered_content` after the compliance-replacement loop of
`filter_output` (stage 1, before the disclaimer). -/
def applyReplacements (out : List Char) : List Char :=
  List.foldl (complianceStep out) out compliance_violations

/-- `any` compliance violation occurs in the output. -/
def anyViolation (out : List Char) : Bool :=
  compliance_violations.any (fun v => containsSub v out)

/-- The issue entries appended by the compliance loop. -/
def complianceIssues (out : List Char) : List (List Char) :=
  compliance_violations.foldl
    (fun acc v => if containsSub v out then acc ++ ["규제 위반 표현: ".data ++ v] else acc)
    []

/-- `SecurityGuardrails._needs_disclaimer`. -/
def needsDisclaimer (content : List Char) : Bool :=
  financial_keywords.any (fun k => containsSub k (pyLower content))

/-- The issue entry recorded when the disclaimer is appended. -/
def disclaimerIssue : List Char := "금융 면책 조항 추가".data

/-- The disclaimer-appending step of `filter_output`:
`filtered_content += f"\n\n{disclaimer}"` when `_needs_disclaimer` holds. -/
def withDisclaimer (c : List Char) : List Char :=
  if needsDisclaimer c then c ++ "\n\n".data ++ disclaimerText else c

/-- One iteration of the sensitive-pattern loop of `filter_output`: `search`
is against the original `output`, `re.sub` rewrites the running content. -/
def outputPatternStep (out : List Char) (content : List Char)
    (m : List Char → Option (List Char)) : List Char :=
  if searchScan m out then subScan m "[민감정보 차단]".data content else content

/-- The content after the sensitive-pattern loop. -/
def outputPatternContent (out c : List Char) : List Char :=
  List.foldl (outputPatternStep out) c suspiciousMatchers

/-- The issue entries appended by the sensitive-pattern loop. -/
def outputPatternIssues (out : List Char) : List (List Char) :=
  suspiciousMatchers.foldl
    (fun acc m => if searchScan m out then acc ++ ["민감 정보 노출 위험".data] else acc)
    []

/-- The risk level after stage 1 of `filter_output`: a compliance violation
sets `WARNING`, a sensitive pattern in the original output sets `BLOCKED`. -/
def outputStage1Risk (out : List Char) : RiskLevel :=
  if anySuspicious out then RiskLevel.BLOCKED
  else if anyViolation out then RiskLevel.WARNING
  else RiskLevel.SAFE

/-- The `filtered_content` at the end of stage 1 of `filter_output`. -/
def outputStage1Content (out : List Char) : List Char :=
  outputPatternContent out (withDisclaimer (applyReplacements out))

/-- `SecurityGuardrails.filter_output`: compliance replacements, disclaimer,
sensitive-pattern scrub, then AI moderation only when stage 1 did not block
and the filtered content is nonempty after stripping; a flagged moderation
replaces the content by `blockMsg`. -/
def filter_output (cfg : GuardConfig) (out : List Char) : GuardrailResultM :=
  let r1 := outputStage1Risk out
  let c1 := applyReplacements out
  let c3 := outputStage1Content out
  let cond2 := decide (r1 ≠ RiskLevel.BLOCKED) && stripNonempty c3
  let mod := if cond2 then some (call_openai_moderation cfg c3) else none
  let r2 := stage2Risk r1 mod
  let c4 := match mod with
    | none => c3
    | some m => if m.flagged then blockMsg else c3
  { is_safe := decide (r2 ≠ RiskLevel.BLOCKED),
    risk_level := r2,
    message :=
      if r2 = RiskLevel.BLOCKED then "출력이 보안 정책에 위배되어 차단되었습니다.".data
      else if r2 = RiskLevel.WARNING then "출력이 규제 준수를 위해 수정되었습니다.".data
      else "출력이 안전합니다.".data,
    detected_issues :=
      complianceIssues out ++ (if needsDisclaimer c1 then [disclaimerIssue] else [])
        ++ outputPatternIssues out
        ++ (match mod with | none => [] | some m => modIssuesOutput m),
    filtered_content := some c4,
    moderation_result := mod,
    security_layers :=
      if cond2 then ["규제 준수 필터링".data, "AI 모더레이션".data]
      else ["규제 준수 필터링".data] }

/-! ## `SecurityGuardrails.check_compliance_score` -/

/-- The total number of (non-overlapping) occurrences of compliance
violations in the lowercased content
(`content.lower().count(violation)` summed over the violation list). -/
def totalViolations (content : List Char) : Nat :=
  (compliance_violations.map (fun v => countOcc v (pyLower content))).sum

/-- The `violation_details` entries: violation, count and severity. -/
def violationDetails (content : List Char) : List (List Char × Nat × List Char) :=
  compliance_violations.foldl
    (fun acc v =>
      let c := countOcc v (pyLower content)
      if 0 < c then
        acc ++ [(v, c,
          if v = "무조건".data ∨ v = "보장".data ∨ v = "100%".data then "high".data
          else "medium".data)]
      else acc)
    []

/-- `SecurityGuardrails._get_compliance_recommendations`. -/
def complianceRecs (details : List (List Char × Nat × List Char)) : List (List Char) :=
  let highs := details.filter (fun d => d.2.2 = "high".data)
  let invs := details.filter
    (fun d => ["사세요".data, "파세요".data, "추천".data].any (fun w => containsSub w d.1))
  let guars := details.filter
    (fun d => ["보장".data, "확실".data].any (fun w => containsSub w d.1))
  let recs :=
    (if highs ≠ [] then ["확실성을 나타내는 표현을 '가능성', '예상' 등으로 수정하세요.".data] else [])
      ++ (if invs ≠ [] then ["직접적인 투자 권유 대신 '참고용 정보' 형태로 제공하세요.".data] else [])
      ++ (if guars ≠ [] then ["수익이나 결과를 보장하는 표현을 제거하고 위험성을 명시하세요.".data] else [])
  if recs = [] then ["현재 규제 준수 수준이 양호합니다.".data] else recs

/-- Embedding of Python `round(x, 1)`.  (In `check_compliance_score` the
argument is always integer-valued, where rounding to one decimal is the
identity and the half-to-even tie rule never fires.) -/
def pyRound1 (q : ℚ) : ℚ := ((round (q * 10) : ℤ) : ℚ) / 10

/-- The result dictionary of `check_compliance_score`. -/
structure ComplianceScoreResult where
  score : ℚ
  grade : List Char
  status : List Char
  total_violations : Nat
  violation_details : List (List Char × Nat × List Char)
  recommendations : List (List Char)

/-- The grade/status ladder of `check_compliance_score`. -/
def gradeOf (score : ℚ) : List Char × List Char :=
  if 90 ≤ score then ("A".data, "우수".data)
  else if 80 ≤ score then ("B".data, "양호".data)
  else if 70 ≤ score then ("C".data, "보통".data)
  else if 60 ≤ score then ("D".data, "주의".data)
  else ("F".data, "위험".data)

/-- `SecurityGuardrails.check_compliance_score`:
`score = max(0, 100 - total_violations * 100 / max_violations)` with
`max_violations = 10` (exact float arithmetic on these values), rounded to
one decimal, plus the grade ladder. -/
def check_compliance_score (content : List Char) : ComplianceScoreResult :=
  let v := totalViolations content
  let score : ℚ := max 0 (100 - (v : ℚ) * 100 / 10)
  let g := gradeOf score
  { score := pyRound1 score, grade := g.1, status := g.2,
    total_violations := v,
    violation_details := violationDetails content,
    recommendations := complianceRecs (violationDetails content) }

/-! ## Claims C9, C10, C4 -/

/-- C9: every input longer than 10,000 characters is blocked by
`check_input` regardless of content (and of the moderation oracle). -/
theorem check_input_length_blocked :
    ∀ (cfg : GuardConfig) (input : List Char), 10000 < input.length →
      (check_input cfg input).risk_level = RiskLevel.BLOCKED ∧
      (check_input cfg input).is_safe = false := by
  intro cfg input h
  have hr1 : inputStage1Risk input = RiskLevel.BLOCKED := by
    simp [inputStage1Risk, h]
  constructor
  · simp [check_input, hr1, stage2Risk]
  · simp [check_input, hr1, stage2Risk]

/-- Witness for C9 at a concrete input of length 10,001. -/
theorem check_input_length_blocked_witness :
    10000 < (List.replicate 10001 'a').length ∧
    (check_input ⟨false, fun _ => ⟨false, [], none⟩⟩ (List.replicate 10001 'a')).risk_level
      = RiskLevel.BLOCKED := by
  have hlen : 10000 < (List.replicate 10001 'a').length := by
    simp only [List.length_replicate]
    omega
  exact ⟨hlen,
    (check_input_length_blocked ⟨false, fun _ => ⟨false, [], none⟩⟩ _ hlen).1⟩

/-- C10: both `check_input` and `filter_output` always return
`is_safe = (risk_level ≠ BLOCKED)`; a `WARNING` result is reported safe and a
`BLOCKED` result never is. -/
theorem is_safe_iff_not_blocked :
    ∀ (cfg : GuardConfig) (input out : List Char),
      (check_input cfg input).is_safe
        = decide ((check_input cfg input).risk_level ≠ RiskLevel.BLOCKED) ∧
      (filter_output cfg out).is_safe
        = decide ((filter_output cfg out).risk_level ≠ RiskLevel.BLOCKED) ∧
      ((check_input cfg input).risk_level = RiskLevel.WARNING →
        (check_input cfg input).is_safe = true) ∧
      ((check_input cfg input).risk_level = RiskLevel.BLOCKED →
        (check_input cfg input).is_safe = false) ∧
      ((filter_output cfg out).risk_level = RiskLevel.WARNING →
        (filter_output cfg out).is_safe = true) ∧
      ((filter_output cfg out).risk_level = RiskLevel.BLOCKED →
        (filter_output cfg out).is_safe = false) := by
  intro cfg input out
  refine ⟨rfl, rfl, ?_, ?_, ?_, ?_⟩ <;> intro h <;>
    first
      | (show decide ((check_input cfg input).risk_level ≠ RiskLevel.BLOCKED) = _
         rw [h]; decide)
      | (show decide ((filter_output cfg out).risk_level ≠ RiskLevel.BLOCKED) = _
         rw [h]; decide)

/-- Witness for C10 at a concrete input (a `WARNING`-free safe result). -/
theorem is_safe_iff_not_blocked_witness :
    (check_input ⟨false, fun _ => ⟨false, [], none⟩⟩ "hello".data).is_safe
      = decide ((check_input ⟨false, fun _ => ⟨false, [], none⟩⟩ "hello".data).risk_level
          ≠ RiskLevel.BLOCKED) :=
  (is_safe_iff_not_blocked ⟨false, fun _ => ⟨false, [], none⟩⟩ "hello".data []).1

/-- C4: in both pipelines, stage 2 (the moderation call) runs iff stage 1
did not block and the text being checked is nonempty after stripping; when
stage 1 blocks, `moderation_result` is `None` and the AI-moderation layer is
absent from `security_layers`. -/
theorem moderation_call_iff :
    ∀ (cfg : GuardConfig) (input out : List Char),
      ((check_input cfg input).moderation_result.isSome = true ↔
        (inputStage1Risk input ≠ RiskLevel.BLOCKED ∧ stripNonempty input = true)) ∧
      ("AI 모더레이션".data ∈ (check_input cfg input).security_layers ↔
        (inputStage1Risk input ≠ RiskLevel.BLOCKED ∧ stripNonempty input = true)) ∧
      (inputStage1Risk input = RiskLevel.BLOCKED →
        (check_input cfg input).moderation_result = none ∧
        "AI 모더레이션".data ∉ (check_input cfg input).security_layers) ∧
      ((filter_output cfg out).moderation_result.isSome = true ↔
        (outputStage1Risk out ≠ RiskLevel.BLOCKED ∧
          stripNonempty (outputStage1Content out) = true)) ∧
      ("AI 모더레이션".data ∈ (filter_output cfg out).security_layers ↔
        (outputStage1Risk out ≠ RiskLevel.BLOCKED ∧
          stripNonempty (outputStage1Content out) = true)) ∧
      (outputStage1Risk out = RiskLevel.BLOCKED →
        (filter_output cfg out).moderation_result = none ∧
        "AI 모더레이션".data ∉ (filter_output cfg out).security_layers) := by
  intro cfg input out
  refine ⟨?_, ?_, ?_, ?_, ?_, ?_⟩
  · by_cases h1 : inputStage1Risk input = RiskLevel.BLOCKED <;>
      by_cases h2 : stripNonempty input = true <;>
      simp [check_input, h1, h2]
  · by_cases h1 : inputStage1Risk input = RiskLevel.BLOCKED <;>
      by_cases h2 : stripNonempty input = true <;>
      simp [check_input, h1, h2]
  · intro h1
    constructor
    · simp [check_input, h1]
    · simp [check_input, h1]
  · by_cases h1 : outputStage1Risk out = RiskLevel.BLOCKED <;>
      by_cases h2 : stripNonempty (outputStage1Content out) = true <;>
      simp [filter_output, h1, h2]
  · by_cases h1 : outputStage1Risk out = RiskLevel.BLOCKED <;>
      by_cases h2 : stripNonempty (outputStage1Content out) = true <;>
      simp [filter_output, h1, h2]
  · intro h1
    constructor
    · simp [filter_output, h1]
    · simp [filter_output, h1]

/-- Witness for C4 at a concrete configuration and input: a blocked stage 1
(`"해킹"` is blacklisted) yields no moderation result. -/
theorem moderation_call_iff_witness :
    (check_input ⟨false, fun _ => ⟨false, [], none⟩⟩ "해킹".data).moderation_result = none := by
  have h1 : inputStage1Risk "해킹".data = RiskLevel.BLOCKED := by decide
  exact ((moderation_call_iff ⟨false, fun _ => ⟨false, [], none⟩⟩ "해킹".data []).2.2.1 h1).1

/-! ## Claim C7 -/

theorem pyRound1_int (n : ℤ) : pyRound1 ((n : ℚ)) = (n : ℚ) := by
  unfold pyRound1
  rw [show ((n : ℚ) * 10) = (((n * 10 : ℤ)) : ℚ) by push_cast; ring, round_intCast]
  push_cast
  field_simp

theorem gradeOf_spec (s : ℚ) :
    ((gradeOf s).1 = "A".data ↔ 90 ≤ s) ∧
    ((gradeOf s).1 = "B".data ↔ 80 ≤ s ∧ s < 90) ∧
    ((gradeOf s).1 = "C".data ↔ 70 ≤ s ∧ s < 80) ∧
    ((gradeOf s).1 = "D".data ↔ 60 ≤ s ∧ s < 70) ∧
    ((gradeOf s).1 = "F".data ↔ s < 60) := by
  unfold gradeOf
  split_ifs with h1 h2 h3 h4 <;>
    refine ⟨?_, ?_, ?_, ?_, ?_⟩ <;>
    constructor <;>
    intro hx <;>
    first
      | rfl
      | linarith
      | (constructor <;> linarith)
      | (exfalso; revert hx; decide)
      | (exfalso; rcases hx with ⟨hx1, hx2⟩; linarith)
      | (exfalso; linarith)

/-- C7: `check_compliance_score` returns
`score = max(0, 100 − 10·v)` (rounded to one decimal, which is the identity
here) for `v` the total violation count in the lowercased content; the score
lies in `[0, 100]` and is `100` exactly when `v = 0`; and the grade ladder is
`A`/`B`/`C`/`D`/`F` at the thresholds 90/80/70/60. -/
theorem check_compliance_score_spec :
    ∀ content : List Char,
      (check_compliance_score content).score
        = max 0 (100 - 10 * (totalViolations content : ℚ)) ∧
      0 ≤ (check_compliance_score content).score ∧
      (check_compliance_score content).score ≤ 100 ∧
      ((check_compliance_score content).score = 100 ↔ totalViolations content = 0) ∧
      ((check_compliance_score content).grade = "A".data ↔
        90 ≤ (check_compliance_score content).score) ∧
      ((check_compliance_score content).grade = "B".data ↔
        80 ≤ (check_compliance_score content).score ∧
          (check_compliance_score content).score < 90) ∧
      ((check_compliance_score content).grade = "C".data ↔
        70 ≤ (check_compliance_score content).score ∧
          (check_compliance_score content).score < 80) ∧
      ((check_compliance_score content).grade = "D".data ↔
        60 ≤ (check_compliance_score content).score ∧
          (check_compliance_score content).score < 70) ∧
      ((check_compliance_score content).grade = "F".data ↔
        (check_compliance_score content).score < 60) := by
  intro content
  have hcast : ((totalViolations content : ℚ)) * 100 / 10
      = 10 * (totalViolations content : ℚ) := by ring
  have hint : max (0 : ℚ) (100 - 10 * (totalViolations content : ℚ))
      = ((max 0 (100 - 10 * (totalViolations content : ℤ)) : ℤ) : ℚ) := by
    push_cast
    ring_nf
  have hscore : (check_compliance_score content).score
      = max 0 (100 - 10 * (totalViolations content : ℚ)) := by
    show pyRound1 (max 0 (100 - (totalViolations content : ℚ) * 100 / 10)) = _
    rw [hcast, hint, pyRound1_int]
  have hgrade : (check_compliance_score content).grade
      = (gradeOf (max 0 (100 - 10 * (totalViolations content : ℚ)))).1 := by
    show (gradeOf (max 0 (100 - (totalViolations content : ℚ) * 100 / 10))).1 = _
    rw [hcast]
  have hnn : (0 : ℚ) ≤ (totalViolations content : ℚ) := Nat.cast_nonneg _
  have hg := gradeOf_spec (max 0 (100 - 10 * (totalViolations content : ℚ)))
  refine ⟨hscore, ?_, ?_, ?_, ?_, ?_, ?_, ?_, ?_⟩
  · rw [hscore]; exact le_max_left _ _
  · rw [hscore]
    exact max_le (by norm_num) (by linarith)
  · rw [hscore]
    constructor
    · intro h100
      by_contra hne
      have h1 : 1 ≤ totalViolations content := Nat.one_le_iff_ne_zero.mpr hne
      have h1q : (1 : ℚ) ≤ (totalViolations content : ℚ) := by exact_mod_cast h1
      have : max (0 : ℚ) (100 - 10 * (totalViolations content : ℚ)) ≤ 90 :=
        max_le (by norm_num) (by linarith)
      linarith [this.trans_eq' h100.symm]
    · intro h0
      rw [h0]
      norm_num
  · rw [hscore, hgrade]; exact hg.1
  · rw [hscore, hgrade]; exact hg.2.1
  · rw [hscore, hgrade]; exact hg.2.2.1
  · rw [hscore, hgrade]; exact hg.2.2.2.1
  · rw [hscore, hgrade]; exact hg.2.2.2.2

/-- Witness for C7 at a concrete content. -/
theorem check_compliance_score_spec_witness :
    (check_compliance_score "무조건".data).score
      = max 0 (100 - 10 * (totalViolations "무조건".data : ℚ)) :=
  (check_compliance_score_spec "무조건".data).1

/-! ## Lowercasing is transparent to Hangul-only keywords

`_needs_disclaimer` tests the keywords against `content.lower()`; since the
fourteen keywords consist of Hangul syllables only (never produced nor
consumed by ASCII lowercasing), the test is equivalent to containment in the
unlowered content. -/

theorem pyToLower_range {c : Char} (h : pyToLower c ≠ c) :
    97 ≤ (pyToLower c).toNat ∧ (pyToLower c).toNat ≤ 122 := by
  by_cases hc : 65 ≤ c.toNat ∧ c.toNat ≤ 90
  · rw [show pyToLower c = Char.ofNat (c.toNat + 32) by rw [pyToLower, if_pos hc]]
    obtain ⟨h1, h2⟩ := hc
    generalize c.toNat = n at h1 h2 ⊢
    interval_cases n <;> decide
  · exfalso
    rw [pyToLower, if_neg hc] at h
    exact h rfl

theorem map_eq_of_mem_fix (f : Char → Char) :
    ∀ (mid k : List Char), List.map f mid = k → (∀ c, f c ∈ k → f c = c) → mid = k := by
  intro mid
  induction mid with
  | nil =>
    intro k h _
    rw [← h]
    rfl
  | cons c cs ih =>
    intro k h hfix
    subst h
    have hc : f c = c := hfix c (by simp)
    have ih' : cs = List.map f cs :=
      ih (List.map f cs) rfl (fun c' h' => hfix c' (by simp [h']))
    rw [List.map_cons, hc, ← ih']

/-- For a pattern `k` whose characters are fixed by lowercasing and are not
in the lowercase ASCII range, occurrence in the lowered string is occurrence
in the string. -/
theorem lower_infix_iff (k s : List Char)
    (h1 : ∀ c ∈ k, pyToLower c = c)
    (hk : ∀ c ∈ k, ¬(97 ≤ c.toNat ∧ c.toNat ≤ 122)) :
    k <:+: pyLower s ↔ k <:+: s := by
  have hmapk : List.map pyToLower k = k := by
    rw [List.map_congr_left h1, List.map_id']
  have h2 : ∀ c, pyToLower c ∈ k → pyToLower c = c := by
    intro c hc
    by_contra hne
    exact hk _ hc (pyToLower_range hne)
  constructor
  · rintro ⟨l, r, h⟩
    have hmid : List.map pyToLower ((s.drop l.length).take k.length) = k := by
      rw [List.map_take, List.map_drop]
      show ((pyLower s).drop l.length).take k.length = k
      rw [← h]
      rw [List.append_assoc, List.drop_left, List.take_left]
    have := map_eq_of_mem_fix pyToLower _ _ hmid h2
    rw [← this]
    have hp1 : (s.drop l.length).take k.length <+: s.drop l.length := List.take_prefix _ _
    have hs1 : s.drop l.length <:+ s := List.drop_suffix _ _
    exact List.IsInfix.trans ( List.IsPrefix.isInfix hp1) ( List.IsSuffix.isInfix hs1)
  · rintro ⟨l, r, h⟩
    refine ⟨List.map pyToLower l, List.map pyToLower r, ?_⟩
    rw [← hmapk]
    show List.map pyToLower l ++ List.map pyToLower k ++ List.map pyToLower r = pyLower s
    rw [← List.map_append, ← List.map_append, h]
    rfl

/-! ## Claim C5 -/

/-- Elements produced by the guarded-append folds used for the issue
lists. -/
theorem mem_guardFold {α : Type} (g : α → List Char) (P : α → Bool) :
    ∀ (l : List α) (acc : List (List Char)) (x : List Char),
      x ∈ l.foldl (fun a v => if P v then a ++ [g v] else a) acc →
      x ∈ acc ∨ ∃ v, v ∈ l ∧ x = g v := by
  intro l
  induction l with
  | nil => intro acc x hx; exact Or.inl hx
  | cons v vs ih =>
    intro acc x hx
    simp only [List.foldl_cons] at hx
    rcases ih _ x hx with hacc | ⟨w, hw, hxw⟩
    · by_cases hP : P v = true
      · rw [if_pos hP] at hacc
        rcases List.mem_append.mp hacc with h | h
        · exact Or.inl h
        · exact Or.inr ⟨v, by simp, by simpa using h⟩
      · rw [if_neg hP] at hacc
        exact Or.inl hacc
    · exact Or.inr ⟨w, by simp [hw], hxw⟩

theorem disclaimerIssue_ne_append (a : Char) (rest v : List Char) (ha : a ≠ '금') :
    disclaimerIssue ≠ (a :: rest) ++ v := by
  intro h
  rw [show disclaimerIssue = '금' :: "융 면책 조항 추가".data from rfl] at h
  simp only [List.cons_append, List.cons.injEq] at h
  exact ha h.1.symm

theorem disclaimerIssue_not_mem_complianceIssues (out : List Char) :
    disclaimerIssue ∉ complianceIssues out := by
  intro h
  rcases mem_guardFold (fun v => "규제 위반 표현: ".data ++ v) _ compliance_violations [] _ h with
    hacc | ⟨v, _, hxv⟩
  · simp at hacc
  · exact disclaimerIssue_ne_append '규' "제 위반 표현: ".data v (by decide) hxv

theorem disclaimerIssue_not_mem_patternIssues (out : List Char) :
    disclaimerIssue ∉ outputPatternIssues out := by
  intro h
  rcases mem_guardFold (fun _ => "민감 정보 노출 위험".data) _ suspiciousMatchers [] _ h with
    hacc | ⟨v, _, hxv⟩
  · simp at hacc
  · exact absurd hxv (by decide)

theorem disclaimerIssue_not_mem_modIssuesOutput (m : ModerationResultM) :
    disclaimerIssue ∉ modIssuesOutput m := by
  unfold modIssuesOutput
  by_cases hf : m.flagged = true
  · rw [if_pos hf]
    by_cases hc : flaggedCats m ≠ []
    · rw [if_pos hc]
      intro h
      simp only [List.mem_singleton] at h
      exact disclaimerIssue_ne_append 'A' "I 모더레이션 차단: ".data _ (by decide) h
    · rw [if_neg hc]
      intro h
      simp only [List.mem_singleton] at h
      exact absurd h (by decide)
  · rw [if_neg hf]
    cases herr : m.error with
    | some e =>
      intro h
      simp only [List.mem_singleton] at h
      exact disclaimerIssue_ne_append 'A' "I 모더레이션 오류: ".data e (by decide) h
    | none => simp

/-- C5: `filter_output` appends the fixed financial disclaimer to the
filtered content exactly when the content after the stage-1 compliance
substitutions contains one of the fourteen financial keywords; when none is
present no disclaimer is appended.  The disclaimer issue entry appears in
`detected_issues` under the same condition. -/
theorem disclaimer_append_iff :
    ∀ (cfg : GuardConfig) (out : List Char),
      (needsDisclaimer (applyReplacements out) = true →
        withDisclaimer (applyReplacements out)
          = applyReplacements out ++ "\n\n".data ++ disclaimerText) ∧
      (needsDisclaimer (applyReplacements out) = false →
        withDisclaimer (applyReplacements out) = applyReplacements out) ∧
      (needsDisclaimer (applyReplacements out) = true ↔
        ∃ k ∈ financial_keywords, k <:+: applyReplacements out) ∧
      (disclaimerIssue ∈ (filter_output cfg out).detected_issues ↔
        needsDisclaimer (applyReplacements out) = true) := by
  intro cfg out
  refine ⟨?_, ?_, ?_, ?_⟩
  · intro h
    simp [withDisclaimer, h]
  · intro h
    simp [withDisclaimer, h]
  · have hfin : ∀ k ∈ financial_keywords,
        (∀ c ∈ k, pyToLower c = c) ∧ (∀ c ∈ k, ¬(97 ≤ c.toNat ∧ c.toNat ≤ 122)) := by
      decide
    unfold needsDisclaimer
    rw [List.any_eq_true]
    constructor
    · rintro ⟨k, hk, hsub⟩
      refine ⟨k, hk, ?_⟩
      rw [← lower_infix_iff k _ (hfin k hk).1 (hfin k hk).2]
      exact (containsSub_iff _ _).mp hsub
    · rintro ⟨k, hk, hocc⟩
      refine ⟨k, hk, ?_⟩
      rw [containsSub_iff]
      rw [lower_infix_iff k _ (hfin k hk).1 (hfin k hk).2]
      exact hocc
  · constructor
    · intro h
      by_contra hd
      rw [Bool.not_eq_true] at hd
      simp only [filter_output, hd, Bool.false_eq_true, if_false, List.append_nil,
        List.mem_append] at h
      rcases h with (h | h) | h
      · exact disclaimerIssue_not_mem_complianceIssues out h
      · exact disclaimerIssue_not_mem_patternIssues out h
      · by_cases hcond : (decide (outputStage1Risk out ≠ RiskLevel.BLOCKED)
            && stripNonempty (outputStage1Content out)) = true
        · rw [if_pos hcond] at h
          exact disclaimerIssue_not_mem_modIssuesOutput _ h
        · rw [if_neg hcond] at h
          simp at h
    · intro hd
      simp [filter_output, hd]

/-- Witness for C5 at a concrete output containing a financial keyword. -/
theorem disclaimer_append_iff_witness :
    withDisclaimer (applyReplacements "투자".data)
      = applyReplacements "투자".data ++ "\n\n".data ++ disclaimerText :=
  (disclaimer_append_iff ⟨false, fun _ => ⟨false, [], none⟩⟩ "투자".data).1 (by decide)

/-! ## A theory of `str.replace`

For claim C3 we prove that the compliance-replacement loop leaves no
occurrence of a replaced phrase behind.  The key notion is overlap-freeness
between a protected phrase `p` and a replacement string `r`:

* `p` does not occur inside `r`;
* no nonempty suffix of `r` is a prefix of `p` (no occurrence of `p` can
  start inside an inserted copy of `r`);
* no proper nonempty suffix of `p` is a prefix of `r`, and `r` is not a
  prefix of any proper nonempty suffix of `p` (no occurrence of `p` can end
  inside, or continue past, an inserted copy of `r`).

Occurrences of `p` lying entirely in untouched characters are traced back to
occurrences in the scanned string by `replace_aux`. -/

theorem replaceL_nil (p r : List Char) : replaceL p r [] = [] := by
  unfold replaceL
  split
  · rfl
  · rfl

theorem replaceL_empty_pat (p r s : List Char) (hp : p.isEmpty = true) :
    replaceL p r s = s := by
  unfold replaceL
  rw [if_pos hp]

theorem replaceL_cons_pos (p r : List Char) (c : Char) (cs : List Char)
    (hp : p.isEmpty = false) (hm : p.isPrefixOf (c :: cs) = true) :
    replaceL p r (c :: cs) = r ++ replaceL p r ((c :: cs).drop p.length) := by
  have hppos : 0 < p.length := by
    cases p with
    | nil => simp [List.isEmpty] at hp
    | cons a as => simp
  unfold replaceL
  simp only [hp, Bool.false_eq_true, if_false]
  show replaceFuel p r (cs.length + 1) (c :: cs) = _
  rw [show replaceFuel p r (cs.length + 1) (c :: cs)
      = if p.isPrefixOf (c :: cs) then r ++ replaceFuel p r cs.length ((c :: cs).drop p.length)
        else c :: replaceFuel p r cs.length cs from rfl]
  rw [if_pos hm]
  congr 1
  exact replaceFuel_congr p r hp cs.length _ _
    (by simp only [List.length_drop, List.length_cons]; omega) (le_refl _)

theorem replaceL_cons_neg (p r : List Char) (c : Char) (cs : List Char)
    (hp : p.isEmpty = false) (hm : p.isPrefixOf (c :: cs) = false) :
    replaceL p r (c :: cs) = c :: replaceL p r cs := by
  unfold replaceL
  simp only [hp, Bool.false_eq_true, if_false]
  show replaceFuel p r (cs.length + 1) (c :: cs) = _
  rw [show replaceFuel p r (cs.length + 1) (c :: cs)
      = if p.isPrefixOf (c :: cs) then r ++ replaceFuel p r cs.length ((c :: cs).drop p.length)
        else c :: replaceFuel p r cs.length cs from rfl]
  rw [if_neg (by simp [hm])]

theorem infix_iff_drop (p z : List Char) : p <:+: z ↔ ∃ i, p <+: z.drop i := by
  constructor
  · rintro ⟨l, r, h⟩
    refine ⟨l.length, ?_⟩
    rw [← h, List.append_assoc, List.drop_left]
    exact List.prefix_append p r
  · rintro ⟨i, hw⟩
    obtain ⟨w, hw'⟩ := hw
    exact ⟨z.take i, w, by rw [List.append_assoc, hw', List.take_append_drop]⟩

/-- Tracing a prefix of the replaced string back to the source: a nonempty
proper suffix `t` of the protected phrase `p` that is overlap-free with `r`
can be a prefix of `replaceL q r s` only by being a prefix of `s`. -/
theorem replace_aux (p q r : List Char)
    (hA : ∀ t, t <:+ p → t ≠ [] → t ≠ p → ¬ t <+: r ∧ ¬ r <+: t) :
    ∀ (s t : List Char), t <:+ p → t ≠ [] → t ≠ p → t <+: replaceL q r s → t <+: s := by
  have main : ∀ n (s : List Char), s.length ≤ n →
      ∀ t, t <:+ p → t ≠ [] → t ≠ p → t <+: replaceL q r s → t <+: s := by
    intro n
    induction n with
    | zero =>
      intro s hs t ht htne htp hpre
      have hsnil : s = [] := List.length_eq_zero.mp (Nat.le_zero.mp hs)
      subst hsnil
      rw [replaceL_nil] at hpre
      exact absurd (List.prefix_nil.mp hpre) htne
    | succ n ih =>
      intro s hs t ht htne htp hpre
      by_cases hqe : q.isEmpty = true
      · rw [replaceL_empty_pat q r s hqe] at hpre
        exact hpre
      · rw [Bool.not_eq_true] at hqe
        cases s with
        | nil =>
          rw [replaceL_nil] at hpre
          exact absurd (List.prefix_nil.mp hpre) htne
        | cons c cs =>
          by_cases hm : q.isPrefixOf (c :: cs) = true
          · rw [replaceL_cons_pos q r c cs hqe hm] at hpre
            rcases List.prefix_or_prefix_of_prefix hpre (List.prefix_append r _) with h | h
            · exact absurd h (hA t ht htne htp).1
            · exact absurd h (hA t ht htne htp).2
          · rw [Bool.not_eq_true] at hm
            rw [replaceL_cons_neg q r c cs hqe hm] at hpre
            cases t with
            | nil => exact absurd rfl htne
            | cons a t' =>
              rw [List.cons_prefix_cons] at hpre
              obtain ⟨hac, hpre'⟩ := hpre
              subst hac
              by_cases ht'e : t' = []
              · subst ht'e
                exact List.cons_prefix_cons.mpr ⟨rfl, List.nil_prefix⟩
              · have ht'suf : t' <:+ p := (List.suffix_cons a t').trans ht
                have ht'p : t' ≠ p := by
                  intro hcontra
                  have hlen := List.IsSuffix.length_le ht
                  rw [hcontra] at hlen
                  simp at hlen
                have hrec := ih cs (by simp at hs; omega) t' ht'suf ht'e ht'p hpre'
                exact List.cons_prefix_cons.mpr ⟨rfl, hrec⟩
  intro s
  exact main s.length s (le_refl _)

/-- After replacing every occurrence of `p` by an overlap-free `r`, the
phrase `p` no longer occurs. -/
theorem replace_self_no_occ (p r : List Char)
    (hne : p ≠ [])
    (h1 : ¬ p <:+: r)
    (h2 : ∀ u, u <:+ r → u ≠ [] → ¬ u <+: p)
    (hA : ∀ t, t <:+ p → t ≠ [] → t ≠ p → ¬ t <+: r ∧ ¬ r <+: t) :
    ∀ s, ¬ p <:+: replaceL p r s := by
  have hpe : p.isEmpty = false := by
    cases p with
    | nil => exact absurd rfl hne
    | cons a as => rfl
  have hppos : 0 < p.length := List.length_pos.mpr hne
  have main : ∀ n (s : List Char), s.length ≤ n → ¬ p <:+: replaceL p r s := by
    intro n
    induction n with
    | zero =>
      intro s hs hinf
      have hsnil : s = [] := List.length_eq_zero.mp (Nat.le_zero.mp hs)
      subst hsnil
      rw [replaceL_nil] at hinf
      exact hne (List.infix_nil.mp hinf)
    | succ n ih =>
      intro s hs hinf
      cases s with
      | nil =>
        rw [replaceL_nil] at hinf
        exact hne (List.infix_nil.mp hinf)
      | cons c cs =>
        by_cases hm : p.isPrefixOf (c :: cs) = true
        · rw [replaceL_cons_pos p r c cs hpe hm] at hinf
          rw [infix_iff_drop] at hinf
          obtain ⟨i, hpre⟩ := hinf
          rw [List.drop_append_eq_append_drop] at hpre
          by_cases hi : i < r.length
          · have h0 : i - r.length = 0 := by omega
            rw [h0, List.drop_zero] at hpre
            rcases List.prefix_or_prefix_of_prefix hpre (List.prefix_append _ _) with h | h
            · exact h1 (List.IsInfix.trans ( List.IsPrefix.isInfix h)
                ( List.IsSuffix.isInfix (List.drop_suffix i r)))
            · have hdne : r.drop i ≠ [] := by
                intro hnil
                have := congrArg List.length hnil
                simp [List.length_drop] at this
                omega
              exact (h2 _ (List.drop_suffix i r) hdne) h
          · rw [List.drop_eq_nil_of_le (by omega), List.nil_append] at hpre
            have hrec : p <:+: replaceL p r ((c :: cs).drop p.length) :=
              (infix_iff_drop _ _).mpr ⟨i - r.length, hpre⟩
            have hlen : ((c :: cs).drop p.length).length ≤ n := by
              simp only [List.length_drop, List.length_cons]
              simp only [List.length_cons] at hs
              omega
            exact ih _ hlen hrec
        · rw [Bool.not_eq_true] at hm
          rw [replaceL_cons_neg p r c cs hpe hm] at hinf
          rw [infix_iff_drop] at hinf
          obtain ⟨i, hpre⟩ := hinf
          cases i with
          | zero =>
            rw [List.drop_zero] at hpre
            cases hp : p with
            | nil => exact hne hp
            | cons a p' =>
              rw [hp, List.cons_prefix_cons] at hpre
              obtain ⟨hac, hp'⟩ := hpre
              subst hac
              by_cases hp'e : p' = []
              · subst hp'e
                rw [hp] at hm
                simp [List.isPrefixOf] at hm
              · have hsuf : p' <:+ p := by rw [hp]; exact List.suffix_cons a p'
                have hnep : p' ≠ p := by
                  intro hcontra
                  have : p.length = p'.length + 1 := by rw [hp]; rfl
                  rw [hcontra] at this
                  omega
                rw [← hp] at hp'
                have hcs : p' <+: cs := replace_aux p p r hA cs p' hsuf hp'e hnep hp'
                rw [hp] at hm
                rw [show a :: p' = [a] ++ p' from rfl] at hm
                have : (a :: p').isPrefixOf (a :: cs) = true := by
                  rw [ List.isPrefixOf_iff_prefix]
                  exact List.cons_prefix_cons.mpr ⟨rfl, hcs⟩
                rw [show a :: p' = [a] ++ p' from rfl] at this
                rw [this] at hm
                exact absurd hm (by simp)
          | succ i' =>
            rw [List.drop_succ_cons] at hpre
            have hrec : p <:+: replaceL p r cs := (infix_iff_drop _ _).mpr ⟨i', hpre⟩
            exact ih cs (by simp only [List.length_cons] at hs; omega) hrec
  intro s
  exact main s.length s (le_refl _)

/-- Replacing a different pattern `q` by a string `r` that is overlap-free
with `p` cannot introduce an occurrence of `p`. -/
theorem replace_other_no_occ (p q r : List Char)
    (h1 : ¬ p <:+: r)
    (h2 : ∀ u, u <:+ r → u ≠ [] → ¬ u <+: p)
    (hA : ∀ t, t <:+ p → t ≠ [] → t ≠ p → ¬ t <+: r ∧ ¬ r <+: t) :
    ∀ s, ¬ p <:+: s → ¬ p <:+: replaceL q r s := by
  have main : ∀ n (s : List Char), s.length ≤ n → ¬ p <:+: s → ¬ p <:+: replaceL q r s := by
    intro n
    induction n with
    | zero =>
      intro s hs hns hinf
      have hsnil : s = [] := List.length_eq_zero.mp (Nat.le_zero.mp hs)
      subst hsnil
      rw [replaceL_nil] at hinf
      exact hns hinf
    | succ n ih =>
      intro s hs hns hinf
      by_cases hqe : q.isEmpty = true
      · rw [replaceL_empty_pat q r s hqe] at hinf
        exact hns hinf
      · rw [Bool.not_eq_true] at hqe
        have hqne : q ≠ [] := by
          intro hq
          rw [hq] at hqe
          simp [List.isEmpty] at hqe
        cases s with
        | nil =>
          rw [replaceL_nil] at hinf
          exact hns hinf
        | cons c cs =>
          by_cases hm : q.isPrefixOf (c :: cs) = true
          · rw [replaceL_cons_pos q r c cs hqe hm] at hinf
            rw [infix_iff_drop] at hinf
            obtain ⟨i, hpre⟩ := hinf
            rw [List.drop_append_eq_append_drop] at hpre
            by_cases hi : i < r.length
            · have h0 : i - r.length = 0 := by omega
              rw [h0, List.drop_zero] at hpre
              rcases List.prefix_or_prefix_of_prefix hpre (List.prefix_append _ _) with h | h
              · exact h1 (List.IsInfix.trans ( List.IsPrefix.isInfix h)
                  ( List.IsSuffix.isInfix (List.drop_suffix i r)))
              · have hdne : r.drop i ≠ [] := by
                  intro hnil
                  have := congrArg List.length hnil
                  simp [List.length_drop] at this
                  omega
                exact (h2 _ (List.drop_suffix i r) hdne) h
            · rw [List.drop_eq_nil_of_le (by omega), List.nil_append] at hpre
              have hrec : p <:+: replaceL q r ((c :: cs).drop q.length) :=
                (infix_iff_drop _ _).mpr ⟨i - r.length, hpre⟩
              have hqpos : 0 < q.length := List.length_pos.mpr hqne
              have hlen : ((c :: cs).drop q.length).length ≤ n := by
                simp only [List.length_drop, List.length_cons]
                simp only [List.length_cons] at hs
                omega
              have hnodrop : ¬ p <:+: (c :: cs).drop q.length := by
                intro hdropocc
                exact hns (List.IsInfix.trans hdropocc
                  ( List.IsSuffix.isInfix (List.drop_suffix q.length (c :: cs))))
              exact ih _ hlen hnodrop hrec
          · rw [Bool.not_eq_true] at hm
            rw [replaceL_cons_neg q r c cs hqe hm] at hinf
            rw [infix_iff_drop] at hinf
            obtain ⟨i, hpre⟩ := hinf
            cases i with
            | zero =>
              rw [List.drop_zero] at hpre
              cases hp : p with
              | nil =>
                rw [hp] at hns
                exact hns List.nil_infix
              | cons a p' =>
                rw [hp, List.cons_prefix_cons] at hpre
                obtain ⟨hac, hp'⟩ := hpre
                subst hac
                by_cases hp'e : p' = []
                · subst hp'e
                  apply hns
                  rw [hp]
                  exact List.IsPrefix.isInfix (List.cons_prefix_cons.mpr ⟨rfl, List.nil_prefix⟩)
                · have hsuf : p' <:+ p := by rw [hp]; exact List.suffix_cons a p'
                  have hnep : p' ≠ p := by
                    intro hcontra
                    have : p.length = p'.length + 1 := by rw [hp]; rfl
                    rw [hcontra] at this
                    omega
                  have hcs : p' <+: cs := replace_aux p q r hA cs p' hsuf hp'e hnep hp'
                  apply hns
                  rw [hp]
                  exact List.IsPrefix.isInfix (List.cons_prefix_cons.mpr ⟨rfl, hcs⟩)
            | succ i' =>
              rw [List.drop_succ_cons] at hpre
              have hrec : p <:+: replaceL q r cs := (infix_iff_drop _ _).mpr ⟨i', hpre⟩
              have hncs : ¬ p <:+: cs := by
                intro hcsocc
                exact hns (List.IsInfix.trans hcsocc
                  ( List.IsSuffix.isInfix (List.suffix_cons c cs)))
              exact ih cs (by simp only [List.length_cons] at hs; omega) hncs hrec
  intro s
  exact main s.length s (le_refl _)

/-- `str.replace` is the identity when the pattern does not occur. -/
theorem replaceL_of_not_occ (q r : List Char) :
    ∀ s, ¬ q <:+: s → replaceL q r s = s := by
  intro s
  induction s with
  | nil => intro _; exact replaceL_nil q r
  | cons c cs ih =>
    intro hns
    by_cases hqe : q.isEmpty = true
    · rw [List.isEmpty_iff] at hqe
      subst hqe
      exact absurd List.nil_infix hns
    · rw [Bool.not_eq_true] at hqe
      have hm : q.isPrefixOf (c :: cs) = false := by
        rw [Bool.eq_false_iff]
        intro hmt
        rw [ List.isPrefixOf_iff_prefix] at hmt
        exact hns ( List.IsPrefix.isInfix hmt)
      rw [replaceL_cons_neg q r c cs hqe hm]
      rw [ih (fun hcs => hns (List.IsInfix.trans hcs
        ( List.IsSuffix.isInfix (List.suffix_cons c cs))))]

/-- Decidable check of the overlap-freeness conditions between a protected
phrase `p` and a replacement string `r`. -/
def condsCheck (p r : List Char) : Bool :=
  !(containsSub p r)
  && (r.tails.all fun u => u.isEmpty || !(u.isPrefixOf p))
  && (p.tails.all fun t => t.isEmpty || t == p || (!(t.isPrefixOf r) && !(r.isPrefixOf t)))

theorem condsCheck_spec (p r : List Char) (h : condsCheck p r = true) :
    (¬ p <:+: r) ∧ (∀ u, u <:+ r → u ≠ [] → ¬ u <+: p) ∧
    (∀ t, t <:+ p → t ≠ [] → t ≠ p → ¬ t <+: r ∧ ¬ r <+: t) := by
  unfold condsCheck at h
  simp only [Bool.and_eq_true, List.all_eq_true] at h
  obtain ⟨⟨hA, hB⟩, hC⟩ := h
  refine ⟨?_, ?_, ?_⟩
  · intro hinf
    rw [← containsSub_iff] at hinf
    rw [hinf] at hA
    exact absurd hA (by simp)
  · intro u hu hune hup
    have hmem := hB u ((List.mem_tails _ _).mpr hu)
    simp only [Bool.or_eq_true] at hmem
    rcases hmem with h | h
    · exact hune (List.isEmpty_iff.mp h)
    · rw [← List.isPrefixOf_iff_prefix] at hup
      rw [hup] at h
      exact absurd h (by simp)
  · intro t ht htne htp
    have hmem := hC t ((List.mem_tails _ _).mpr ht)
    simp only [Bool.or_eq_true, Bool.and_eq_true] at hmem
    rcases hmem with (h | h) | ⟨h1, h2⟩
    · exact absurd (List.isEmpty_iff.mp h) htne
    · exact absurd (by simpa using h) htp
    · constructor
      · intro hpr
        rw [← List.isPrefixOf_iff_prefix] at hpr
        rw [hpr] at h1
        exact absurd h1 (by simp)
      · intro hrp
        rw [← List.isPrefixOf_iff_prefix] at hrp
        rw [hrp] at h2
        exact absurd h2 (by simp)

/-- Decidable check that the compliance step for the violation `v` preserves
absence of the protected phrase `p`: either `v` has no replacement, or `p`
occurs inside `v` (so `v` cannot occur once `p` is gone), or the replacement
for `v` is overlap-free with `p`. -/
def stepOK (p v : List Char) : Bool :=
  match lookupRepl v with
  | none => true
  | some rr => !(v.isEmpty) && (containsSub p v || condsCheck p rr)

theorem step_preserves (p out c v : List Char)
    (hok : stepOK p v = true) (hnc : ¬ p <:+: c) :
    ¬ p <:+: complianceStep out c v := by
  unfold complianceStep
  by_cases ho : containsSub v out = true
  · rw [if_pos ho]
    cases hl : lookupRepl v with
    | none => exact hnc
    | some rr =>
      unfold stepOK at hok
      rw [hl] at hok
      simp only [Bool.and_eq_true, Bool.or_eq_true] at hok
      obtain ⟨hvne, hroute⟩ := hok
      have hvne' : v ≠ [] := by
        intro hv
        rw [hv] at hvne
        exact absurd hvne (by simp [List.isEmpty])
      rcases hroute with hin | hcond
      · have hpv : p <:+: v := (containsSub_iff _ _).mp hin
        have hvnc : ¬ v <:+: c := fun hvc => hnc (hpv.trans hvc)
        show ¬ p <:+: replaceL v rr c
        rw [replaceL_of_not_occ v rr c hvnc]
        exact hnc
      · obtain ⟨h1, h2, hA⟩ := condsCheck_spec p rr hcond
        exact replace_other_no_occ p v rr h1 h2 hA c hnc
  · rw [if_neg ho]
    exact hnc

theorem fold_preserves (p out : List Char) :
    ∀ (vs : List (List Char)), vs.all (stepOK p) = true →
      ∀ c, ¬ p <:+: c → ¬ p <:+: List.foldl (complianceStep out) c vs := by
  intro vs
  induction vs with
  | nil =>
    intro _ c hc
    simpa using hc
  | cons v vt ih =>
    intro hall c hc
    simp only [List.all_cons, Bool.and_eq_true] at hall
    rw [List.foldl_cons]
    exact ih hall.2 _ (step_preserves p out c v hall.1 hc)

/-- The master lemma for one replaced phrase: if `p` occurs in the output,
the compliance loop first eliminates every occurrence of `p` at `p`'s own
step, and the later steps cannot reintroduce it. -/
theorem applyRepl_case (p r : List Char) (pre post : List (List Char))
    (hsplit : compliance_violations = pre ++ p :: post)
    (hlook : lookupRepl p = some r)
    (hpne : p ≠ [])
    (hconds : condsCheck p r = true)
    (hpost : post.all (stepOK p) = true) :
    ∀ out, p <:+: out → ¬ p <:+: applyReplacements out := by
  intro out hocc
  obtain ⟨h1, h2, hA⟩ := condsCheck_spec p r hconds
  unfold applyReplacements
  rw [hsplit, List.foldl_append, List.foldl_cons]
  have hstep : complianceStep out (List.foldl (complianceStep out) out pre) p
      = replaceL p r (List.foldl (complianceStep out) out pre) := by
    unfold complianceStep
    rw [if_pos ((containsSub_iff _ _).mpr hocc), hlook]
  rw [hstep]
  exact fold_preserves p out post hpost _ (replace_self_no_occ p r hpne h1 h2 hA _)

set_option maxRecDepth 200000 in
/-- C3 counterexample: the phrase `"보장"` is a key of the replacement
table and occurs in the output `"투자 보장"`, yet the `filtered_content`
returned by `filter_output` (in the keyword-only configuration) still
contains `"보장"` — the appended financial disclaimer reintroduces it. -/
theorem compliance_replacement_cex :
    ("보장".data, "예상".data) ∈ compliance_replacements ∧
    "보장".data <:+: "투자 보장".data ∧
    "보장".data <:+:
      ((filter_output ⟨false, fun _ => ⟨false, [], none⟩⟩
        "투자 보장".data).filtered_content.getD []) := by
  refine ⟨by decide, by decide, ?_⟩
  decide

/-- C3 (amended): for every output string and every phrase `p` that is a key
of the compliance replacement table, if `p` occurs in the output then the
content produced by the stage-1 compliance-replacement loop of
`filter_output` contains no occurrence of `p`.  (The final
`filtered_content` can reintroduce a phrase only through the later stages:
the appended financial disclaimer contains `"보장"`.) -/
theorem compliance_replacement_no_occ :
    ∀ (out p r : List Char), (p, r) ∈ compliance_replacements → p <:+: out →
      ¬ p <:+: applyReplacements out := by
  intro out p r hmem hocc
  simp only [compliance_replacements, List.mem_cons, Prod.mk.injEq,
    List.not_mem_nil, or_false] at hmem
  rcases hmem with ⟨hp, hr⟩ | ⟨hp, hr⟩ | ⟨hp, hr⟩ | ⟨hp, hr⟩ | ⟨hp, hr⟩ | ⟨hp, hr⟩ |
    ⟨hp, hr⟩ | ⟨hp, hr⟩ | ⟨hp, hr⟩ | ⟨hp, hr⟩ | ⟨hp, hr⟩ | ⟨hp, hr⟩ <;>
    subst hp <;> subst hr
  · exact applyRepl_case _ _ (compliance_violations.take 0) (compliance_violations.drop 1)
      rfl rfl (by decide) (by rfl) (by rfl) out hocc
  · exact applyRepl_case _ _ (compliance_violations.take 1) (compliance_violations.drop 2)
      rfl rfl (by decide) (by rfl) (by rfl) out hocc
  · exact applyRepl_case _ _ (compliance_violations.take 2) (compliance_violations.drop 3)
      rfl rfl (by decide) (by rfl) (by rfl) out hocc
  · exact applyRepl_case _ _ (compliance_violations.take 3) (compliance_violations.drop 4)
      rfl rfl (by decide) (by rfl) (by rfl) out hocc
  · exact applyRepl_case _ _ (compliance_violations.take 4) (compliance_violations.drop 5)
      rfl rfl (by decide) (by rfl) (by rfl) out hocc
  · exact applyRepl_case _ _ (compliance_violations.take 5) (compliance_violations.drop 6)
      rfl rfl (by decide) (by rfl) (by rfl) out hocc
  · exact applyRepl_case _ _ (compliance_violations.take 6) (compliance_violations.drop 7)
      rfl rfl (by decide) (by rfl) (by rfl) out hocc
  · exact applyRepl_case _ _ (compliance_violations.take 7) (compliance_violations.drop 8)
      rfl rfl (by decide) (by rfl) (by rfl) out hocc
  · exact applyRepl_case _ _ (compliance_violations.take 8) (compliance_violations.drop 9)
      rfl rfl (by decide) (by rfl) (by rfl) out hocc
  · exact applyRepl_case _ _ (compliance_violations.take 11) (compliance_violations.drop 12)
      rfl rfl (by decide) (by rfl) (by rfl) out hocc
  · exact applyRepl_case _ _ (compliance_violations.take 13) (compliance_violations.drop 14)
      rfl rfl (by decide) (by rfl) (by rfl) out hocc
  · exact applyRepl_case _ _ (compliance_violations.take 14) (compliance_violations.drop 15)
      rfl rfl (by decide) (by rfl) (by rfl) out hocc

set_option maxRecDepth 200000 in
/-- Witness for C3 (amended) at a concrete output: after the replacement
loop, `"보장 수익"` contains no `"보장"` any more. -/
theorem compliance_replacement_no_occ_witness :
    (("보장".data, "예상".data) ∈ compliance_replacements ∧
      "보장".data <:+: "보장 수익".data) ∧
    ¬ "보장".data <:+: applyReplacements "보장 수익".data :=
  ⟨⟨by decide, by decide⟩,
    compliance_replacement_no_occ "보장 수익".data "보장".data "예상".data
      (by decide) (by decide)⟩

/-! ## `agents/core.py`

The multi-agent orchestrator.  The LLM framework calls (`CodeAgent.run`) are
external and embedded as oracles in `AgentEnv`; so are the three
`_initialize_agent` outcomes (`…InitFail`) and the availability of the
`smolagents` library.  `datetime.now().strftime(...)` is the `now` argument.
Session-state/logging side effects do not influence the returned report and
are not modelled. -/

/-- The literal segments of `_generate_demo_research` (around `{query}`). -/
def researchTplA : List Char := ("# 🔍 리서치 에이전트 보고서 (데모 모드)\n\n**질의**: ").data

def researchTplB : List Char := ("\n\n## 📋 수집된 정보\n\n### 🏢 사내 데이터베이스 검색 결과\n- **검색 상태**: 데모 모드 시뮬레이션\n- **관련 문서**: 사내 리포트 3건 발견 (시뮬레이션)\n- **주요 내용**: 관련 분석 자료 및 과거 연구 결과\n\n### 🌐 외부 정보 수집 결과  \n- **웹 검색**: 최신 뉴스 및 시장 동향 정보\n- **신뢰도**: 출처 검증 완료\n- **업데이트**: 실시간 정보 반영\n\n## 📊 정보 요약\n실제 운영 환경에서는 다음과 같은 상세 정보를 제공합니다:\n- 사내 지식베이스의 관련 문서 전문\n- 검증된 외부 소스의 최신 정보\n- 정보의 신뢰도 및 출처 평가\n\n---\n⚠️ **데모 모드**: 실제 정보 수집을 위해서는 OpenAI API 키 설정이 필요합니다.\n").data

def analysisTplA : List Char := ("# 📈 시장 분석 에이전트 보고서 (데모 모드)\n\n**분석 대상**: ").data

def analysisTplB : List Char := ("\n\n## 📊 정량적 분석 결과\n\n### 💰 주가 정보 (시뮬레이션)\n- **현재가**: 75,000원 (데모 데이터)\n- **전일대비**: +1,500원 (+2.04%)\n- **거래량**: 1,234,567주\n- **시가총액**: 45조원\n\n### 📈 기술적 분석\n- **추세**: 상승 추세 지속 (데모)\n- **지지선**: 72,000원\n- **저항선**: 78,000원\n- **RSI**: 65.4 (중립)\n\n### 🏦 시장 현황\n- **코스피**: 2,450.32 (+0.85%)\n- **코스닥**: 850.45 (+1.23%)\n- **섹터 순위**: 반도체 업종 2위\n\n## 📋 분석 요약\n실제 운영 환경에서는 다음과 같은 상세 분석을 제공합니다:\n- 실시간 주가 데이터 및 차트 분석\n- 동종 업계 비교 분석\n- 재무 지표 기반 밸류에이션\n- 리스크 요인 및 투자 포인트\n\n---\n⚠️ **데모 모드**: 실제 시장 분석을 위해서는 OpenAI API 키 설정이 필요합니다.\n").data

def combinedTpl0 : List Char := ("# 🏦 Quant-X 종합 리서치 보고서 (데모 모드)\n\n**요청**: ").data

def combinedTpl1 : List Char := ("\n**작성일**: ").data

def combinedTpl2 : List Char := ("\n**팀장**: ").data

def combinedTpl3 : List Char := ("\n\n---\n\n## 📋 팀 협업 과정\n\n### 1️⃣ 정보 수집 단계 (리서처)\n").data

def combinedTpl4 : List Char := ("\n\n---\n\n### 2️⃣ 시장 분석 단계 (애널리스트)  \n").data

def combinedTpl5 : List Char := ("\n\n---\n\n## 🎯 종합 결론\n\n위 팀원들의 작업 결과를 종합하면:\n\n### 📊 주요 발견사항\n- **정보 수집**: 리서처가 사내외 데이터를 체계적으로 수집\n- **정량 분석**: 애널리스트가 시장 데이터를 객관적으로 분석\n- **협업 효과**: 각 전문가의 강점을 활용한 시너지 창출\n\n### 💡 투자 시사점\n- 수집된 정보와 분석 결과를 종합한 객관적 평가\n- 리스크 요인과 기회 요소의 균형적 검토\n- 데이터 기반의 합리적 투자 판단 근거 제시\n\n---\n\n⚠️ **투자 유의사항**: 본 보고서는 데모용이며, 실제 투자 결정에 사용하지 마세요.\n투자에는 원금 손실 위험이 있으며, 충분한 검토 후 신중한 결정을 권장합니다.\n").data


/-- `not openai_api_key or openai_api_key.startswith('your_')`: the
environment variable is unset, empty, or a `your_…` placeholder. -/
def demoKeyB : Option (List Char) → Bool
  | none => true
  | some s => s.isEmpty || "your_".data.isPrefixOf s

/-- The external inputs of the agent constructors: library availability,
initialisation failures, and the LLM answers. -/
structure AgentEnv where
  smolagents_available : Bool
  researchInitFail : Bool
  analystInitFail : Bool
  managerInitFail : Bool
  llmResearch : List Char → List Char
  llmAnalysis : List Char → List Char
  llmManage : List Char → List Char

/-- The `is_demo_mode` flag computed by each agent constructor: set when the
key is missing or a placeholder, when `smolagents` is unavailable, or when
the agent initialisation raised. -/
def agentDemoFlag (key : Option (List Char)) (smol : Bool) (initFail : Bool) : Bool :=
  demoKeyB key || !smol || initFail

/-- `ResearchAgent.is_demo_mode`. -/
def research_is_demo (env : AgentEnv) (key : Option (List Char)) : Bool :=
  agentDemoFlag key env.smolagents_available env.researchInitFail

/-- `MarketAnalystAgent.is_demo_mode`. -/
def analyst_is_demo (env : AgentEnv) (key : Option (List Char)) : Bool :=
  agentDemoFlag key env.smolagents_available env.analystInitFail

/-- `ManagerAgent.is_demo_mode`. -/
def manager_is_demo (env : AgentEnv) (key : Option (List Char)) : Bool :=
  agentDemoFlag key env.smolagents_available env.managerInitFail

/-- `QuantXMultiAgent.is_demo_mode` (copied from the manager). -/
def quantx_is_demo (env : AgentEnv) (key : Option (List Char)) : Bool :=
  manager_is_demo env key

/-- `ResearchAgent._generate_demo_research`. -/
def demoResearchText (query : List Char) : List Char :=
  researchTplA ++ query ++ researchTplB

/-- `MarketAnalystAgent._generate_demo_analysis`. -/
def demoAnalysisText (query : List Char) : List Char :=
  analysisTplA ++ query ++ analysisTplB

/-- `ResearchAgent.research`: demo text in demo mode, the agent-framework
answer otherwise. -/
def researchRun (env : AgentEnv) (key : Option (List Char)) (query : List Char) : List Char :=
  if research_is_demo env key then demoResearchText query else env.llmResearch query

/-- `MarketAnalystAgent.analyze`. -/
def analysisRun (env : AgentEnv) (key : Option (List Char)) (query : List Char) : List Char :=
  if analyst_is_demo env key then demoAnalysisText query else env.llmAnalysis query

/-- The `combined_report` template of
`ManagerAgent._execute_demo_collaboration`. -/
def combinedReport (user_id request now research_result analysis_result : List Char) :
    List Char :=
  combinedTpl0 ++ request ++ combinedTpl1 ++ now ++ combinedTpl2 ++ user_id
    ++ combinedTpl3 ++ research_result ++ combinedTpl4 ++ analysis_result ++ combinedTpl5

/-- `ManagerAgent.manage_request`: in demo mode it runs the demo
collaboration (which itself calls the two worker agents); otherwise the
LLM-driven management path (embedded as an oracle). -/
def manage_request (env : AgentEnv) (key : Option (List Char))
    (user_id request now : List Char) : List Char :=
  if manager_is_demo env key then
    combinedReport user_id request now (researchRun env key request)
      (analysisRun env key request)
  else env.llmManage request

/-- `QuantXMultiAgent.process_request` delegates to the manager. -/
def process_request (env : AgentEnv) (key : Option (List Char))
    (user_id request now : List Char) : List Char :=
  manage_request env key user_id request now

/-- C8: whenever `OPENAI_API_KEY` is unset or starts with `your_`, all four
agents are constructed in demo mode and `process_request` returns the canned
combined demo report (containing the research and market-analysis demo
sections) for every LLM oracle — the framework is never consulted. -/
theorem demo_mode_spec :
    ∀ (env : AgentEnv) (key : Option (List Char)) (uid req now : List Char),
      demoKeyB key = true →
      research_is_demo env key = true ∧
      analyst_is_demo env key = true ∧
      manager_is_demo env key = true ∧
      quantx_is_demo env key = true ∧
      process_request env key uid req now
        = combinedReport uid req now (demoResearchText req) (demoAnalysisText req) := by
  intro env key uid req now hkey
  have hflag : ∀ smol initFail, agentDemoFlag key smol initFail = true := by
    intro smol initFail
    simp [agentDemoFlag, hkey]
  refine ⟨hflag _ _, hflag _ _, hflag _ _, hflag _ _, ?_⟩
  simp [process_request, manage_request, researchRun, analysisRun,
    manager_is_demo, research_is_demo, analyst_is_demo, hflag]

/-- Witness for C8 at a concrete environment with an unset key: the demo
report is produced even though the oracles answer differently. -/
theorem demo_mode_spec_witness :
    process_request
      ⟨true, false, false, false, (fun _ => "L1".data), (fun _ => "L2".data),
        (fun _ => "L3".data)⟩
      none "team_lead".data "삼성전자 분석".data "2024-12-04 09:00:00".data
      = combinedReport "team_lead".data "삼성전자 분석".data "2024-12-04 09:00:00".data
        (demoResearchText "삼성전자 분석".data) (demoAnalysisText "삼성전자 분석".data) :=
  (demo_mode_spec
    ⟨true, false, false, false, (fun _ => "L1".data), (fun _ => "L2".data),
      (fun _ => "L3".data)⟩
    none "team_lead".data "삼성전자 분석".data "2024-12-04 09:00:00".data rfl).2.2.2.2
